import Mathlib

/-!
Shallow embedding of the fixed-capacity binary Merkle tree implemented in
`merkle_tree.hpp` / `merkle_tree.cpp`, together with proofs of the
specification's claims about it.

Modelling conventions:
* `hash_t` (`std::size_t`) values are `Nat`s; the wrap-around of the C++
  addition `leftChildHash + rightChildHash` on 64-bit `size_t` is made
  explicit as `% hashMod` with `hashMod = 2 ^ 64`.
* The two standard-library hash functions the source uses,
  `std::hash<hash_t>` and `std::hash<std::string>`, are implementation
  defined; they are taken as explicit parameters `hashNat : Nat → Nat` and
  `hashStr : String → Nat` of every operation that uses them.
* Exceptions become `Except MerkleError`; the C++ methods check their
  error condition before touching any member, so the error branch returns
  no tree and the state is unchanged by construction.
-/

namespace MerkleSpec

/-- `treeHeight` from `merkle_tree.hpp`: the height of the tree. -/
def treeHeight : Nat := 5

/-- `treeCapacity` from `merkle_tree.hpp`: `1 << treeHeight`. -/
def treeCapacity : Nat := 1 <<< treeHeight

/-- Modulus of `hash_t` (`std::size_t`) arithmetic: 64-bit wrap-around. -/
def hashMod : Nat := 2 ^ 64

/-- `MerkleTree::MerkleNode`: the location of a node, by level (root is
level 0) and index (leftmost node of a level is index 0). -/
structure MerkleNode where
  level : Nat
  index : Nat
deriving DecidableEq

/-- `MerkleNode::getIndex`. -/
def MerkleNode.getIndex (n : MerkleNode) : Nat := n.index

/-- `MerkleNode::isLeaf`: true iff the node is on the last level. -/
def MerkleNode.isLeaf (n : MerkleNode) : Bool := n.level == treeHeight

/-- `MerkleNode::getSiblingNode`: even index pairs with `index + 1`, odd
index pairs with `index - 1`. -/
def MerkleNode.getSiblingNode (n : MerkleNode) : MerkleNode :=
  if n.index % 2 == 0 then ⟨n.level, n.index + 1⟩ else ⟨n.level, n.index - 1⟩

/-- `MerkleNode::getLeftChild`: `(level + 1, 2 * index)`. -/
def MerkleNode.getLeftChild (n : MerkleNode) : MerkleNode :=
  ⟨n.level + 1, 2 * n.index⟩

/-- `MerkleNode::getRightChild`: `(level + 1, 2 * index + 1)`. -/
def MerkleNode.getRightChild (n : MerkleNode) : MerkleNode :=
  ⟨n.level + 1, 2 * n.index + 1⟩

/-- The loop body of `MerkleNode::getPathFromLeafToRoot`, recursing on the
loop counter `pathNodeLevel`, which runs from `treeHeight` down to `1`:
each step records the node `(pathNodeLevel, pathNodeIndex)` and floor
divides the index by 2. -/
def pathAux : Nat → Nat → List MerkleNode
  | 0, _ => []
  | l + 1, i => ⟨l + 1, i⟩ :: pathAux l (i / 2)

/-- `MerkleNode::getPathFromLeafToRoot`: the ordered sequence of
`treeHeight` nodes from this leaf node up to the child of the root. -/
def MerkleNode.getPathFromLeafToRoot (n : MerkleNode) : List MerkleNode :=
  pathAux treeHeight n.index

/-- The parent-from-children combination step appearing in both
`MerkleTree::getNodeHash` (line 53) and `verifyProof` (line 114):
`std::hash<hash_t>()(leftChildHash + rightChildHash)`, the `size_t`
addition wrapping modulo `2 ^ 64`. -/
def combine (hashNat : Nat → Nat) (l r : Nat) : Nat :=
  hashNat ((l + r) % hashMod)

/-- Recursion of `MerkleTree::getNodeHash`, structured on the number `d` of
levels below the node (`d = treeHeight - level`): `d = 0` exactly when
`node.isLeaf()`, and the node at depth `d + 1` and index `i` combines its
left child (depth `d`, index `2 * i`) and right child (depth `d`, index
`2 * i + 1`). -/
def getNodeHashAux (hashNat : Nat → Nat) (leaves : List Nat) : Nat → Nat → Nat
  | 0, index => leaves.getD index 0
  | d + 1, index =>
      combine hashNat (getNodeHashAux hashNat leaves d (2 * index))
        (getNodeHashAux hashNat leaves d (2 * index + 1))

/-- `MerkleTree::getNodeHash`: the stored leaf value for a leaf node,
otherwise the combination of the recursively computed child hashes. The
source recursion is only ever invoked on nodes with `level ≤ treeHeight`
(guaranteed by `MerkleTree`), where it agrees with this depth-indexed
rendering branch for branch. -/
def getNodeHash (hashNat : Nat → Nat) (leaves : List Nat) (node : MerkleNode) : Nat :=
  getNodeHashAux hashNat leaves (treeHeight - node.level) node.index

/-- The error kinds of `merkle_tree_exceptions.hpp`: full tree, empty
tree, node index out of range. -/
inductive MerkleError where
  | full
  | empty
  | indexOutOfRange
deriving DecidableEq

/-- The state of a `MerkleTree`: cached root hash, fill count, and the
fixed-size leaf array (`std::array<hash_t, treeCapacity>`, modelled as a
list of length `treeCapacity`). -/
structure MerkleTree where
  currentRootHash : Nat
  currentTreeSize : Nat
  treeLeafNodes : List Nat
deriving DecidableEq

/-- The default-constructed `MerkleTree`: root hash 0, size 0, all leaf
slots holding the placeholder value 0. -/
def MerkleTree.new : MerkleTree :=
  ⟨0, 0, List.replicate treeCapacity 0⟩

/-- `MerkleTree::isFull`. -/
def MerkleTree.isFull (t : MerkleTree) : Bool :=
  t.currentTreeSize == treeCapacity

/-- `MerkleTree::isEmpty`. -/
def MerkleTree.isEmpty (t : MerkleTree) : Bool :=
  t.currentTreeSize == 0

/-- `MerkleTree::addHashOf`: throws `MerkleTreeFullException` when full
(before touching any member), otherwise stores `std::hash<std::string>`
of the data at index `currentTreeSize`, increments the size, and
recomputes the root hash from the whole tree. -/
def MerkleTree.addHashOf (hashNat : Nat → Nat) (hashStr : String → Nat)
    (t : MerkleTree) (data : String) : Except MerkleError MerkleTree :=
  if t.isFull then
    .error .full
  else
    let dataHash := hashStr data
    let newLeaves := t.treeLeafNodes.set t.currentTreeSize dataHash
    .ok { currentRootHash := getNodeHash hashNat newLeaves ⟨0, 0⟩,
          currentTreeSize := t.currentTreeSize + 1,
          treeLeafNodes := newLeaves }

/-- `MerkleTree::getRootHash`: throws `MerkleTreeEmptyException` when
empty, otherwise returns the cached root hash. -/
def MerkleTree.getRootHash (t : MerkleTree) : Except MerkleError Nat :=
  if t.isEmpty then .error .empty else .ok t.currentRootHash

/-- `MerkleTree::generateProof`: empty and range checks, then the hashes
of the siblings of the nodes on the path from leaf `leafNodeIndex` to the
root. -/
def MerkleTree.generateProof (hashNat : Nat → Nat) (t : MerkleTree)
    (leafNodeIndex : Nat) : Except MerkleError (List Nat) :=
  if t.isEmpty then
    .error .empty
  else if t.currentTreeSize ≤ leafNodeIndex then
    .error .indexOutOfRange
  else
    .ok ((MerkleNode.getPathFromLeafToRoot ⟨treeHeight, leafNodeIndex⟩).map
      fun n => getNodeHash hashNat t.treeLeafNodes n.getSiblingNode)

/-- `verifyProof` (free function): folds the combination step over the
proof starting from the hash of the candidate data and compares the result
with the given root hash. -/
def verifyProof (hashNat : Nat → Nat) (hashStr : String → Nat)
    (rootHash : Nat) (proof : List Nat) (data : String) : Bool :=
  (proof.foldl (fun computed p => combine hashNat computed p) (hashStr data)) == rootHash

/-- Building a tree by a sequence of `addHashOf` calls starting from the
default-constructed tree; the whole build fails if any append throws. -/
def buildTree (hashNat : Nat → Nat) (hashStr : String → Nat)
    (datas : List String) : Except MerkleError MerkleTree :=
  datas.foldlM (fun t d => t.addHashOf hashNat hashStr d) MerkleTree.new

/-- A tree state is reachable when some sequence of successful appends
from the default-constructed tree produces it. -/
def Reachable (hashNat : Nat → Nat) (hashStr : String → Nat) (t : MerkleTree) : Prop :=
  ∃ datas : List String, buildTree hashNat hashStr datas = .ok t

instance {ε α : Type} [DecidableEq ε] [DecidableEq α] : DecidableEq (Except ε α) := fun x y =>
  match x, y with
  | .ok a, .ok b =>
      if h : a = b then .isTrue (by rw [h]) else .isFalse (fun hc => h (Except.ok.inj hc))
  | .error a, .error b =>
      if h : a = b then .isTrue (by rw [h]) else .isFalse (fun hc => h (Except.error.inj hc))
  | .ok _, .error _ => .isFalse (fun hc => Except.noConfusion hc)
  | .error _, .ok _ => .isFalse (fun hc => Except.noConfusion hc)

/-! ### Helper lemmas about lists -/

theorem getD_replicate_zero : ∀ (n i : Nat), (List.replicate n (0 : Nat)).getD i 0 = 0
  | 0, _ => by simp
  | _ + 1, 0 => by simp [List.replicate]
  | n + 1, i + 1 => by simpa [List.replicate] using getD_replicate_zero n i

theorem getD_set_self : ∀ (L : List Nat) (a v : Nat), a < L.length → (L.set a v).getD a 0 = v
  | [], _, _, h => by simp at h
  | _ :: _, 0, _, _ => by simp
  | _ :: L, a + 1, v, h => by
      simpa using getD_set_self L a v (by simp at h; omega)

theorem getD_set_ne : ∀ (L : List Nat) (a j v : Nat), a ≠ j → (L.set a v).getD j 0 = L.getD j 0
  | [], _, _, _, _ => by simp
  | _ :: _, 0, 0, _, h => absurd rfl h
  | _ :: _, 0, _ + 1, _, _ => by simp
  | _ :: _, _ + 1, 0, _, _ => by simp
  | _ :: L, a + 1, j + 1, v, h => by
      simpa using getD_set_ne L a j v (fun hc => h (by rw [hc]))

theorem foldlM_cons_except {α σ ε : Type} (f : σ → α → Except ε σ) (s : σ) (a : α)
    (l : List α) : List.foldlM f s (a :: l) = (f s a).bind (fun x => List.foldlM f x l) := rfl

/-! ### Helper lemmas about node hashes -/

theorem combine_comm (hashNat : Nat → Nat) (l r : Nat) :
    combine hashNat l r = combine hashNat r l := by
  unfold combine
  rw [Nat.add_comm]

theorem treeCapacity_eq_pow : treeCapacity = 2 ^ treeHeight := by decide

theorem getNodeHash_leaf (hashNat : Nat → Nat) (leaves : List Nat) (i : Nat) :
    getNodeHash hashNat leaves ⟨treeHeight, i⟩ = leaves.getD i 0 := rfl

theorem getNodeHash_internal (hashNat : Nat → Nat) (leaves : List Nat) (l j : Nat)
    (hl : l < treeHeight) :
    getNodeHash hashNat leaves ⟨l, j⟩
      = combine hashNat (getNodeHash hashNat leaves ⟨l + 1, 2 * j⟩)
          (getNodeHash hashNat leaves ⟨l + 1, 2 * j + 1⟩) := by
  have h : treeHeight - l = (treeHeight - (l + 1)) + 1 := by omega
  simp only [getNodeHash]
  rw [h]
  rfl

theorem combine_sibling (hashNat : Nat → Nat) (leaves : List Nat) (l i : Nat)
    (hl : l < treeHeight) :
    combine hashNat (getNodeHash hashNat leaves ⟨l + 1, i⟩)
        (getNodeHash hashNat leaves (MerkleNode.getSiblingNode ⟨l + 1, i⟩))
      = getNodeHash hashNat leaves ⟨l, i / 2⟩ := by
  rw [getNodeHash_internal hashNat leaves l (i / 2) hl]
  rcases Nat.even_or_odd i with he | ho
  · have hmod : i % 2 = 0 := Nat.even_iff.mp he
    have h2 : 2 * (i / 2) = i := by omega
    have hs : MerkleNode.getSiblingNode ⟨l + 1, i⟩ = ⟨l + 1, i + 1⟩ := by
      simp [MerkleNode.getSiblingNode, hmod]
    rw [hs, h2]
  · have hmod : i % 2 = 1 := Nat.odd_iff.mp ho
    have h2 : 2 * (i / 2) = i - 1 := by omega
    have hs : MerkleNode.getSiblingNode ⟨l + 1, i⟩ = ⟨l + 1, i - 1⟩ := by
      simp [MerkleNode.getSiblingNode, hmod]
    rw [hs, h2]
    have h3 : (i - 1) + 1 = i := by omega
    rw [h3, combine_comm]

theorem pathFold (hashNat : Nat → Nat) (leaves : List Nat) :
    ∀ (l : Nat), l ≤ treeHeight → ∀ i : Nat,
      ((pathAux l i).map fun n => getNodeHash hashNat leaves n.getSiblingNode).foldl
          (fun computed p => combine hashNat computed p)
          (getNodeHash hashNat leaves ⟨l, i⟩)
        = getNodeHash hashNat leaves ⟨0, i / 2 ^ l⟩
  | 0, _, i => by simp [pathAux]
  | l + 1, hl, i => by
      simp only [pathAux, List.map_cons, List.foldl_cons]
      rw [combine_sibling hashNat leaves l i (by omega)]
      rw [pathFold hashNat leaves l (by omega) (i / 2)]
      rw [Nat.div_div_eq_div_mul]
      have hpow : 2 * 2 ^ l = 2 ^ (l + 1) := by
        rw [Nat.pow_succ]
        ring
      rw [hpow]

theorem getNodeHash_replicate_zero (hashNat : Nat → Nat) (h0 : hashNat 0 = 0) :
    ∀ (d l i : Nat), l + d = treeHeight →
      getNodeHash hashNat (List.replicate treeCapacity 0) ⟨l, i⟩ = 0
  | 0, l, i, h => by
      have hl : l = treeHeight := by omega
      subst hl
      rw [getNodeHash_leaf]
      exact getD_replicate_zero _ _
  | d + 1, l, i, h => by
      rw [getNodeHash_internal hashNat _ l i (by omega)]
      rw [getNodeHash_replicate_zero hashNat h0 d (l + 1) (2 * i) (by omega)]
      rw [getNodeHash_replicate_zero hashNat h0 d (l + 1) (2 * i + 1) (by omega)]
      simp [combine, h0]

theorem foldl_combine_ne (hashNat : Nat → Nat)
    (hb : ∀ x, hashNat x < hashMod)
    (hinj : ∀ x y, x < hashMod → y < hashMod → hashNat x = hashNat y → x = y) :
    ∀ (ps : List Nat) (a b : Nat), a < hashMod → b < hashMod → a ≠ b →
      ps.foldl (fun computed p => combine hashNat computed p) a
        ≠ ps.foldl (fun computed p => combine hashNat computed p) b
  | [], _, _, _, _, hne => hne
  | p :: ps, a, b, ha, hb2, hne => by
      simp only [List.foldl_cons]
      apply foldl_combine_ne hashNat hb hinj ps _ _ (hb _) (hb _)
      intro hc
      have hc2 : hashNat ((a + p) % hashMod) = hashNat ((b + p) % hashMod) := hc
      have h64 : 0 < hashMod := by decide
      have hm := hinj _ _ (Nat.mod_lt _ h64) (Nat.mod_lt _ h64) hc2
      apply hne
      simp only [hashMod] at hm ha hb2
      omega

/-! ### Characterization of trees built by sequences of appends -/

theorem foldAdd (hashNat : Nat → Nat) (hashStr : String → Nat) :
    ∀ (datas : List String) (t : MerkleTree),
      t.treeLeafNodes.length = treeCapacity →
      t.currentTreeSize + datas.length ≤ treeCapacity →
      ∃ t2 : MerkleTree,
        List.foldlM (fun a d => a.addHashOf hashNat hashStr d) t datas = .ok t2 ∧
        t2.currentTreeSize = t.currentTreeSize + datas.length ∧
        t2.treeLeafNodes.length = treeCapacity ∧
        (∀ j, j < t.currentTreeSize → t2.treeLeafNodes.getD j 0 = t.treeLeafNodes.getD j 0) ∧
        (∀ k, k < datas.length →
          t2.treeLeafNodes.getD (t.currentTreeSize + k) 0 = hashStr (datas.getD k "")) ∧
        (datas = [] → t2 = t) ∧
        (datas ≠ [] → t2.currentRootHash = getNodeHash hashNat t2.treeLeafNodes ⟨0, 0⟩) := by
  intro datas
  induction datas with
  | nil =>
      intro t hlen _
      exact ⟨t, rfl, by simp, hlen, fun j _ => rfl, fun k hk => by simp at hk,
        fun _ => rfl, fun h => absurd rfl h⟩
  | cons d ds ih =>
      intro t hlen hsz
      have hlt : t.currentTreeSize < treeCapacity := by
        simp only [List.length_cons] at hsz
        omega
      have hnotfull : t.isFull = false := by
        simp only [MerkleTree.isFull, beq_eq_false_iff_ne, ne_eq]
        omega
      have hadd : t.addHashOf hashNat hashStr d
          = .ok ⟨getNodeHash hashNat (t.treeLeafNodes.set t.currentTreeSize (hashStr d)) ⟨0, 0⟩,
                 t.currentTreeSize + 1,
                 t.treeLeafNodes.set t.currentTreeSize (hashStr d)⟩ := by
        simp [MerkleTree.addHashOf, hnotfull]
      obtain ⟨t2, hfold, hsize, hlen2, hpre, hnewpart, hnil, hroot⟩ :=
        ih ⟨getNodeHash hashNat (t.treeLeafNodes.set t.currentTreeSize (hashStr d)) ⟨0, 0⟩,
            t.currentTreeSize + 1,
            t.treeLeafNodes.set t.currentTreeSize (hashStr d)⟩
          (by simpa using hlen)
          (by simp only [List.length_cons] at hsz; dsimp only; omega)
      dsimp only at hsize hpre hnewpart
      refine ⟨t2, ?_, ?_, hlen2, ?_, ?_, ?_, ?_⟩
      · rw [foldlM_cons_except, hadd]
        exact hfold
      · simp only [List.length_cons]
        rw [hsize]
        omega
      · intro j hj
        rw [hpre j (by omega)]
        exact getD_set_ne _ _ _ _ (by omega)
      · intro k hk
        match k with
        | 0 =>
            have h1 := hpre t.currentTreeSize (by omega)
            simp only [Nat.add_zero] at h1 ⊢
            rw [h1]
            rw [getD_set_self _ _ _ (by omega)]
            rfl
        | k + 1 =>
            have h1 := hnewpart k (by simp at hk; omega)
            simp only at h1
            rw [show t.currentTreeSize + (k + 1) = t.currentTreeSize + 1 + k from by omega]
            rw [h1]
            rfl
      · intro h
        exact absurd h (List.cons_ne_nil d ds)
      · intro _
        by_cases hds : ds = []
        · subst hds
          rw [hnil rfl]
        · exact hroot hds

theorem build_spec (hashNat : Nat → Nat) (hashStr : String → Nat)
    (datas : List String) (hlen : datas.length ≤ treeCapacity) :
    ∃ t : MerkleTree,
      buildTree hashNat hashStr datas = .ok t ∧
      t.currentTreeSize = datas.length ∧
      t.treeLeafNodes.length = treeCapacity ∧
      (∀ k, k < datas.length → t.treeLeafNodes.getD k 0 = hashStr (datas.getD k "")) ∧
      (datas = [] → t = MerkleTree.new) ∧
      (datas ≠ [] → t.currentRootHash = getNodeHash hashNat t.treeLeafNodes ⟨0, 0⟩) := by
  obtain ⟨t, h1, h2, h3, _, h5, h6, h7⟩ :=
    foldAdd hashNat hashStr datas MerkleTree.new (by simp [MerkleTree.new])
      (by simpa [MerkleTree.new] using hlen)
  exact ⟨t, h1, by simpa [MerkleTree.new] using h2, h3, by simpa [MerkleTree.new] using h5, h6, h7⟩

theorem build_le (hashNat : Nat → Nat) (hashStr : String → Nat) :
    ∀ (datas : List String) (t t2 : MerkleTree),
      t.currentTreeSize ≤ treeCapacity →
      List.foldlM (fun a d => a.addHashOf hashNat hashStr d) t datas = .ok t2 →
      t.currentTreeSize + datas.length ≤ treeCapacity := by
  intro datas
  induction datas with
  | nil =>
      intro t _ hle _
      simpa using hle
  | cons d ds ih =>
      intro t t2 hle hfold
      rw [foldlM_cons_except] at hfold
      by_cases hf : t.isFull
      · simp [MerkleTree.addHashOf, hf, Except.bind] at hfold
      · have hne : t.currentTreeSize ≠ treeCapacity := by
          simpa [MerkleTree.isFull] using hf
        have hadd : t.addHashOf hashNat hashStr d
            = .ok ⟨getNodeHash hashNat (t.treeLeafNodes.set t.currentTreeSize (hashStr d)) ⟨0, 0⟩,
                   t.currentTreeSize + 1,
                   t.treeLeafNodes.set t.currentTreeSize (hashStr d)⟩ := by
          simp [MerkleTree.addHashOf, hf]
        rw [hadd] at hfold
        have hstep := ih _ t2 (by dsimp only; omega) hfold
        dsimp only at hstep
        simp only [List.length_cons]
        omega

theorem buildTree_length_le (hashNat : Nat → Nat) (hashStr : String → Nat)
    (datas : List String) (t : MerkleTree)
    (ht : buildTree hashNat hashStr datas = .ok t) :
    datas.length ≤ treeCapacity := by
  have := build_le hashNat hashStr datas MerkleTree.new t (by simp [MerkleTree.new]) ht
  simpa [MerkleTree.new] using this

end MerkleSpec

namespace MerkleSpec

theorem build_chain_eq_root (hashNat : Nat → Nat) (hashStr : String → Nat)
    (datas : List String) (i : Nat) (hi : i < datas.length)
    (t : MerkleTree) (ht : buildTree hashNat hashStr datas = .ok t)
    (root : Nat) (hr : t.getRootHash = .ok root)
    (proof : List Nat) (hp : t.generateProof hashNat i = .ok proof) :
    proof.foldl (fun computed p => combine hashNat computed p)
      (hashStr (datas.getD i "")) = root := by
  have hlen := buildTree_length_le hashNat hashStr datas t ht
  obtain ⟨t0, hb, hsz, hL, hget, _, hroot⟩ := build_spec hashNat hashStr datas hlen
  have htt : t0 = t := Except.ok.inj (hb.symm.trans ht)
  subst htt
  have hne : datas ≠ [] := by
    intro h
    subst h
    simp at hi
  have hrootval := hroot hne
  have hem : t0.isEmpty = false := by
    simp only [MerkleTree.isEmpty, beq_eq_false_iff_ne, ne_eq, hsz]
    omega
  rw [MerkleTree.getRootHash, if_neg (by simp [hem])] at hr
  have hr2 : t0.currentRootHash = root := Except.ok.inj hr
  have hile : ¬ (t0.currentTreeSize ≤ i) := by omega
  rw [MerkleTree.generateProof, if_neg (by simp [hem]), if_neg hile] at hp
  have hproof := Except.ok.inj hp
  rw [← hproof]
  have hstart : hashStr (datas.getD i "") = t0.treeLeafNodes.getD i 0 := (hget i hi).symm
  rw [hstart, ← getNodeHash_leaf hashNat t0.treeLeafNodes i]
  dsimp only [MerkleNode.getPathFromLeafToRoot]
  rw [pathFold hashNat t0.treeLeafNodes treeHeight (Nat.le_refl _) i]
  have hcap : treeCapacity = 32 := by decide
  have hpow32 : (2 : Nat) ^ treeHeight = 32 := by decide
  have hi32 : i < 2 ^ treeHeight := by omega
  rw [Nat.div_eq_of_lt hi32, ← hrootval]
  exact hr2

/-- C1 (counterexample): the claim that the parent-from-children combination
rule is order-sensitive is false on this code: `combine` hashes the wrapped
sum of the two child values, so no choice of the underlying hash function
admits child hashes `l`, `r` with `combine l r ≠ combine r l`. -/
theorem C1_counterexample :
    (∃ (hashNat : Nat → Nat) (l r : Nat),
        combine hashNat l r ≠ combine hashNat r l) = False := by
  apply eq_false
  rintro ⟨hashNat, l, r, h⟩
  exact h (combine_comm hashNat l r)

/-- C1 (amended): the parent-from-children combination rule of
`MerkleTree::getNodeHash` / `verifyProof` is commutative: for every
underlying hash function and all child hash values `l` and `r`, combining
`(l, r)` yields the same parent hash as combining `(r, l)`, because the
rule hashes the (wrapping) sum of the two children. -/
theorem C1_combine_commutative (hashNat : Nat → Nat) (l r : Nat) :
    combine hashNat l r = combine hashNat r l :=
  combine_comm hashNat l r

/-- C2: Round-trip: for every tree built by a sequence of successful appends
of `datas` and every `i < datas.length`, `verifyProof` accepts `datas[i]`
against the root hash returned by `getRootHash` and the proof returned by
`generateProof i`. -/
theorem C2_round_trip (hashNat : Nat → Nat) (hashStr : String → Nat)
    (datas : List String) (i : Nat) (hi : i < datas.length)
    (t : MerkleTree) (ht : buildTree hashNat hashStr datas = .ok t)
    (root : Nat) (hr : t.getRootHash = .ok root)
    (proof : List Nat) (hp : t.generateProof hashNat i = .ok proof) :
    verifyProof hashNat hashStr root proof (datas.getD i "") = true := by
  simp only [verifyProof, beq_iff_eq]
  exact build_chain_eq_root hashNat hashStr datas i hi t ht root hr proof hp

/-- Witness for C2 at a concrete instance: one append of `"a"` with
length-based hashes; the proof for index 0 verifies against the root. -/
theorem C2_witness :
    verifyProof (fun x => x % hashMod) (fun s => s.length % hashMod) 1
      [0, 0, 0, 0, 0] "a" = true :=
  C2_round_trip (fun x => x % hashMod) (fun s => s.length % hashMod) ["a"] 0 (by decide)
    ⟨1, 1, (List.replicate treeCapacity 0).set 0 1⟩ (by decide)
    1 (by decide) [0, 0, 0, 0, 0] (by decide)

/-- C8: for every leaf index below the capacity `2 ^ treeHeight`, the path
from leaf to root consists of exactly `treeHeight` addresses, starts at
`(treeHeight, leafIndex)`, each later address has level one less and index
the floor half of the previous one, and the last address is at level 1. -/
theorem C8_path_shape (i : Nat) (hi : i < 2 ^ treeHeight) :
    (MerkleNode.getPathFromLeafToRoot ⟨treeHeight, i⟩).length = treeHeight ∧
    (MerkleNode.getPathFromLeafToRoot ⟨treeHeight, i⟩).getD 0 ⟨0, 0⟩ = ⟨treeHeight, i⟩ ∧
    (∀ k, k + 1 < treeHeight →
      (MerkleNode.getPathFromLeafToRoot ⟨treeHeight, i⟩).getD (k + 1) ⟨0, 0⟩
        = ⟨((MerkleNode.getPathFromLeafToRoot ⟨treeHeight, i⟩).getD k ⟨0, 0⟩).level - 1,
           ((MerkleNode.getPathFromLeafToRoot ⟨treeHeight, i⟩).getD k ⟨0, 0⟩).index / 2⟩) ∧
    ((MerkleNode.getPathFromLeafToRoot ⟨treeHeight, i⟩).getD (treeHeight - 1) ⟨0, 0⟩).level
      = 1 := by
  refine ⟨rfl, rfl, ?_, rfl⟩
  intro k hk
  have hk4 : k < 4 := by simp [treeHeight] at hk; omega
  interval_cases k <;> rfl

/-- Witness for C8 at leaf index 3. -/
theorem C8_witness :
    (MerkleNode.getPathFromLeafToRoot ⟨treeHeight, 3⟩).length = treeHeight :=
  (C8_path_shape 3 (by decide)).1

/-- C9: determinism: two trees each built by replaying the same ordered
sequence of appends (with the same underlying hash functions) return the
same value from `getRootHash`. -/
theorem C9_deterministic_root (hashNat : Nat → Nat) (hashStr : String → Nat)
    (datas : List String) (t1 t2 : MerkleTree)
    (h1 : buildTree hashNat hashStr datas = .ok t1)
    (h2 : buildTree hashNat hashStr datas = .ok t2) :
    t1.getRootHash = t2.getRootHash := by
  have h := Except.ok.inj (h1.symm.trans h2)
  rw [h]

/-- Witness for C9: replaying the single append of `"a"` twice. -/
theorem C9_witness :
    MerkleTree.getRootHash ⟨1, 1, (List.replicate treeCapacity 0).set 0 1⟩
      = MerkleTree.getRootHash ⟨1, 1, (List.replicate treeCapacity 0).set 0 1⟩ :=
  C9_deterministic_root (fun x => x % hashMod) (fun s => s.length % hashMod) ["a"]
    ⟨1, 1, (List.replicate treeCapacity 0).set 0 1⟩
    ⟨1, 1, (List.replicate treeCapacity 0).set 0 1⟩ (by decide) (by decide)

end MerkleSpec

namespace MerkleSpec

/-- C3: tamper sensitivity: for a tree built by appends of `datas`, a proof
generated for index `i`, and candidate data whose leaf hash differs from
that of `datas[i]`, verification fails — stated under the claim's own
no-collision caveat: the leaf hashes differ and the combine step
(`hashNat` on wrapped sums) is collision-free on `hash_t` values. -/
theorem C3_tamper_sensitivity (hashNat : Nat → Nat) (hashStr : String → Nat)
    (hb : ∀ x, hashNat x < hashMod)
    (hsb : ∀ s, hashStr s < hashMod)
    (hinj : ∀ x y, x < hashMod → y < hashMod → hashNat x = hashNat y → x = y)
    (datas : List String) (i : Nat) (hi : i < datas.length)
    (t : MerkleTree) (ht : buildTree hashNat hashStr datas = .ok t)
    (root : Nat) (hr : t.getRootHash = .ok root)
    (proof : List Nat) (hp : t.generateProof hashNat i = .ok proof)
    (data2 : String) (hne : hashStr data2 ≠ hashStr (datas.getD i "")) :
    verifyProof hashNat hashStr root proof data2 = false := by
  have hchain := build_chain_eq_root hashNat hashStr datas i hi t ht root hr proof hp
  have hdiff := foldl_combine_ne hashNat hb hinj proof (hashStr data2)
    (hashStr (datas.getD i "")) (hsb _) (hsb _) hne
  simp only [verifyProof, beq_eq_false_iff_ne, ne_eq]
  rw [← hchain]
  exact hdiff

/-- Witness for C3: the tree of `["a"]` with length-based hashes rejects
the proof for index 0 when replayed with `"bb"`. -/
theorem C3_witness :
    verifyProof (fun x => x % hashMod) (fun s => s.length % hashMod) 1
      [0, 0, 0, 0, 0] "bb" = false :=
  C3_tamper_sensitivity (fun x => x % hashMod) (fun s => s.length % hashMod)
    (fun x => Nat.mod_lt x (by decide))
    (fun s => Nat.mod_lt s.length (by decide))
    (fun x y hx hy h => by
      have h2 : x % hashMod = y % hashMod := h
      rwa [Nat.mod_eq_of_lt hx, Nat.mod_eq_of_lt hy] at h2)
    ["a"] 0 (by decide)
    ⟨1, 1, (List.replicate treeCapacity 0).set 0 1⟩ (by decide)
    1 (by decide) [0, 0, 0, 0, 0] (by decide) "bb" (by decide)

/-- C4: in every reachable tree state, including the freshly constructed
empty tree, the stored `currentRootHash` equals the hash of the address
`(level 0, index 0)` recomputed over the current leaf array. For the empty
tree this uses that the integer hash sends 0 to 0, which holds for the
identity-style `std::hash<std::size_t>` of mainstream standard libraries. -/
theorem C4_root_never_stale (hashNat : Nat → Nat) (hashStr : String → Nat)
    (h0 : hashNat 0 = 0) (t : MerkleTree) (hre : Reachable hashNat hashStr t) :
    t.currentRootHash = getNodeHash hashNat t.treeLeafNodes ⟨0, 0⟩ := by
  obtain ⟨datas, ht⟩ := hre
  have hlen := buildTree_length_le hashNat hashStr datas t ht
  obtain ⟨t0, hb, hsz, hL, hget, hnil, hroot⟩ := build_spec hashNat hashStr datas hlen
  have htt : t0 = t := Except.ok.inj (hb.symm.trans ht)
  subst htt
  by_cases hd : datas = []
  · rw [hnil hd]
    show (0 : Nat) = getNodeHash hashNat (List.replicate treeCapacity 0) ⟨0, 0⟩
    exact (getNodeHash_replicate_zero hashNat h0 treeHeight 0 0 (by omega)).symm
  · exact hroot hd

/-- Witness for C4 at the freshly constructed empty tree with the identity
integer hash. -/
theorem C4_witness :
    MerkleTree.new.currentRootHash
      = getNodeHash (fun x => x) MerkleTree.new.treeLeafNodes ⟨0, 0⟩ :=
  C4_root_never_stale (fun x => x) (fun s => s.length % hashMod) rfl
    MerkleTree.new ⟨[], rfl⟩

/-- C5: `addHashOf` is all-or-nothing: when the tree is full it fails with
the full-tree error (having touched nothing — the C++ throw precedes every
member write, and the functional model returns no tree); otherwise it
stores the leaf hash at index `currentTreeSize`, increments the size by
one, and recomputes the root hash over the updated leaf array. -/
theorem C5_append_all_or_nothing (hashNat : Nat → Nat) (hashStr : String → Nat)
    (t : MerkleTree) (data : String) :
    (t.currentTreeSize = treeCapacity →
      t.addHashOf hashNat hashStr data = .error .full) ∧
    (t.currentTreeSize ≠ treeCapacity →
      t.addHashOf hashNat hashStr data
        = .ok ⟨getNodeHash hashNat
                 (t.treeLeafNodes.set t.currentTreeSize (hashStr data)) ⟨0, 0⟩,
               t.currentTreeSize + 1,
               t.treeLeafNodes.set t.currentTreeSize (hashStr data)⟩) := by
  constructor
  · intro h
    simp [MerkleTree.addHashOf, MerkleTree.isFull, h]
  · intro h
    simp [MerkleTree.addHashOf, MerkleTree.isFull, h]

/-- Witness for C5: a full tree rejects an append; the empty tree accepts
one and ends with the stored leaf, size 1, and recomputed root. -/
theorem C5_witness :
    MerkleTree.addHashOf (fun x => x % hashMod) (fun s => s.length % hashMod)
        ⟨0, treeCapacity, List.replicate treeCapacity 0⟩ "a" = .error .full ∧
    MerkleTree.addHashOf (fun x => x % hashMod) (fun s => s.length % hashMod)
        MerkleTree.new "a"
      = .ok ⟨1, 1, (List.replicate treeCapacity 0).set 0 1⟩ := by
  constructor
  · exact (C5_append_all_or_nothing (fun x => x % hashMod)
      (fun s => s.length % hashMod) ⟨0, treeCapacity, List.replicate treeCapacity 0⟩ "a").1 rfl
  · have h := (C5_append_all_or_nothing (fun x => x % hashMod)
      (fun s => s.length % hashMod) MerkleTree.new "a").2 (by decide)
    rw [h]
    decide

/-- C6: the error boundaries are exact for every tree state: `addHashOf`
fails with the full error iff `currentTreeSize = treeCapacity`;
`getRootHash` and `generateProof` fail with the empty error iff
`currentTreeSize = 0`; `generateProof i` on a non-empty tree fails with
the index-out-of-range error iff `i ≥ currentTreeSize`; in all other
cases each operation succeeds. -/
theorem C6_error_boundaries (hashNat : Nat → Nat) (hashStr : String → Nat)
    (t : MerkleTree) (data : String) (i : Nat) :
    (t.addHashOf hashNat hashStr data = .error .full
      ↔ t.currentTreeSize = treeCapacity) ∧
    (t.getRootHash = .error .empty ↔ t.currentTreeSize = 0) ∧
    (t.generateProof hashNat i = .error .empty ↔ t.currentTreeSize = 0) ∧
    (t.currentTreeSize ≠ 0 →
      (t.generateProof hashNat i = .error .indexOutOfRange
        ↔ t.currentTreeSize ≤ i)) ∧
    (t.currentTreeSize ≠ treeCapacity →
      ∃ t2, t.addHashOf hashNat hashStr data = .ok t2) ∧
    (t.currentTreeSize ≠ 0 → ∃ r, t.getRootHash = .ok r) ∧
    (t.currentTreeSize ≠ 0 → i < t.currentTreeSize →
      ∃ p, t.generateProof hashNat i = .ok p) := by
  refine ⟨?_, ?_, ?_, ?_, ?_, ?_, ?_⟩
  · by_cases h : t.currentTreeSize = treeCapacity <;>
      simp [MerkleTree.addHashOf, MerkleTree.isFull, h]
  · by_cases h : t.currentTreeSize = 0 <;>
      simp [MerkleTree.getRootHash, MerkleTree.isEmpty, h]
  · by_cases h : t.currentTreeSize = 0
    · simp [MerkleTree.generateProof, MerkleTree.isEmpty, h]
    · by_cases h2 : t.currentTreeSize ≤ i <;>
        simp [MerkleTree.generateProof, MerkleTree.isEmpty, h, h2]
  · intro h
    by_cases h2 : t.currentTreeSize ≤ i <;>
      simp [MerkleTree.generateProof, MerkleTree.isEmpty, h, h2]
  · intro h
    simp [MerkleTree.addHashOf, MerkleTree.isFull, h]
  · intro h
    simp [MerkleTree.getRootHash, MerkleTree.isEmpty, h]
  · intro h hi
    simp [MerkleTree.generateProof, MerkleTree.isEmpty, h, Nat.not_le.mpr hi]

/-- Witness for C6 on a non-empty, non-full tree: all three operations
succeed. -/
theorem C6_witness :
    (∃ t2, MerkleTree.addHashOf (fun x => x % hashMod) (fun s => s.length % hashMod)
        ⟨7, 1, (List.replicate treeCapacity 0).set 0 5⟩ "a" = .ok t2) ∧
    (∃ r, MerkleTree.getRootHash ⟨7, 1, (List.replicate treeCapacity 0).set 0 5⟩ = .ok r) ∧
    (∃ p, MerkleTree.generateProof (fun x => x % hashMod)
        ⟨7, 1, (List.replicate treeCapacity 0).set 0 5⟩ 0 = .ok p) := by
  obtain ⟨-, -, -, -, h5, h6, h7⟩ :=
    C6_error_boundaries (fun x => x % hashMod) (fun s => s.length % hashMod)
      ⟨7, 1, (List.replicate treeCapacity 0).set 0 5⟩ "a" 0
  exact ⟨h5 (by decide), h6 (by decide), h7 (by decide) (by decide)⟩

/-- C7: staleness: a proof generated for index `i` of the tree built from
`datas1` fails to verify against the root of the tree built from
`datas1 ++ datas2` (one or more further appends), under the claim's own
caveat that no hash collision makes the new root equal the replayed old
root. -/
theorem C7_stale_proof (hashNat : Nat → Nat) (hashStr : String → Nat)
    (datas1 datas2 : List String) (hd2 : datas2 ≠ [])
    (i : Nat) (hi : i < datas1.length)
    (t1 : MerkleTree) (ht1 : buildTree hashNat hashStr datas1 = .ok t1)
    (r1 : Nat) (hr1 : t1.getRootHash = .ok r1)
    (proof : List Nat) (hp : t1.generateProof hashNat i = .ok proof)
    (t2 : MerkleTree) (ht2 : buildTree hashNat hashStr (datas1 ++ datas2) = .ok t2)
    (r2 : Nat) (hr2 : t2.getRootHash = .ok r2)
    (hcol : r2 ≠ r1) :
    verifyProof hashNat hashStr r2 proof (datas1.getD i "") = false := by
  have hchain := build_chain_eq_root hashNat hashStr datas1 i hi t1 ht1 r1 hr1 proof hp
  simp only [verifyProof, beq_eq_false_iff_ne, ne_eq]
  rw [hchain]
  exact fun h => hcol h.symm

/-- Witness for C7: the proof for `"a"` in the tree of `["a"]` fails
against the root obtained after further appending `"bb"`. -/
theorem C7_witness :
    verifyProof (fun x => x % hashMod) (fun s => s.length % hashMod) 3
      [0, 0, 0, 0, 0] "a" = false :=
  C7_stale_proof (fun x => x % hashMod) (fun s => s.length % hashMod)
    ["a"] ["bb"] (by decide) 0 (by decide)
    ⟨1, 1, (List.replicate treeCapacity 0).set 0 1⟩ (by decide)
    1 (by decide) [0, 0, 0, 0, 0] (by decide)
    ⟨3, 2, ((List.replicate treeCapacity 0).set 0 1).set 1 2⟩ (by decide)
    3 (by decide) (by decide)

end MerkleSpec

namespace MerkleSpec

theorem swap_getNodeHash (hashNat : Nat → Nat) (L : List Nat) (k : Nat)
    (hL : L.length = treeCapacity) (hk : 2 * k + 1 < treeCapacity) :
    ∀ (d l i : Nat), l + d = treeHeight → 1 ≤ d →
      getNodeHash hashNat
          ((L.set (2 * k) (L.getD (2 * k + 1) 0)).set (2 * k + 1) (L.getD (2 * k) 0))
          ⟨l, i⟩
        = getNodeHash hashNat L ⟨l, i⟩
  | 0, _, _, _, hd => by omega
  | 1, l, i, h, _ => by
      rw [getNodeHash_internal hashNat _ l i (by omega)]
      rw [getNodeHash_internal hashNat L l i (by omega)]
      have hlv : l + 1 = treeHeight := by omega
      rw [hlv]
      rw [getNodeHash_leaf, getNodeHash_leaf, getNodeHash_leaf, getNodeHash_leaf]
      by_cases hik : i = k
      · subst hik
        rw [getD_set_ne _ _ _ _ (by omega),
            getD_set_self _ _ _ (by omega),
            getD_set_self _ _ _ (by rw [List.length_set]; omega)]
        exact combine_comm hashNat _ _
      · rw [getD_set_ne _ _ _ _ (by omega), getD_set_ne _ _ _ _ (by omega),
            getD_set_ne _ _ _ _ (by omega), getD_set_ne _ _ _ _ (by omega)]
  | d + 2, l, i, h, _ => by
      rw [getNodeHash_internal hashNat _ l i (by omega)]
      rw [getNodeHash_internal hashNat L l i (by omega)]
      rw [swap_getNodeHash hashNat L k hL hk (d + 1) (l + 1) (2 * i) (by omega) (by omega)]
      rw [swap_getNodeHash hashNat L k hL hk (d + 1) (l + 1) (2 * i + 1) (by omega) (by omega)]

/-- C10 (counterexample): the claim that exchanging the leaf hashes at
sibling positions `2k` and `2k + 1` leaves the hash of every node in the
tree unchanged is false: in the reachable leaf array of the tree built
from `["a"]` (leaf 0 holds 1, leaf 1 holds 0), the swap at `k = 0`
changes the hash of the leaf node `(treeHeight, 0)` itself. -/
theorem C10_counterexample :
    getNodeHash (fun x => x % hashMod)
        ((((List.replicate treeCapacity 0).set 0 1).set (2 * 0)
            (((List.replicate treeCapacity 0).set 0 1).getD (2 * 0 + 1) 0)).set (2 * 0 + 1)
          (((List.replicate treeCapacity 0).set 0 1).getD (2 * 0) 0))
        ⟨treeHeight, 0⟩
      ≠ getNodeHash (fun x => x % hashMod) ((List.replicate treeCapacity 0).set 0 1)
          ⟨treeHeight, 0⟩ := by
  decide

/-- C10 (amended): for every tree built by appends and every sibling leaf
pair `(2k, 2k + 1)` below the capacity, exchanging the two stored leaf
hashes leaves the hash of every non-leaf node (every node with
`level < treeHeight`, hence in particular the root hash at `(0, 0)`)
unchanged; when the two leaf values differ this is a genuinely different
leaf layout committing to the same root; and every proof previously
generated for any other in-range leaf still verifies against the root
recomputed over the swapped leaf array. -/
theorem C10_sibling_swap (hashNat : Nat → Nat) (hashStr : String → Nat)
    (datas : List String) (k : Nat) (hk : 2 * k + 1 < treeCapacity)
    (t : MerkleTree) (ht : buildTree hashNat hashStr datas = .ok t) :
    (∀ node : MerkleNode, node.level < treeHeight →
      getNodeHash hashNat
          ((t.treeLeafNodes.set (2 * k) (t.treeLeafNodes.getD (2 * k + 1) 0)).set (2 * k + 1)
            (t.treeLeafNodes.getD (2 * k) 0)) node
        = getNodeHash hashNat t.treeLeafNodes node) ∧
    (t.treeLeafNodes.getD (2 * k) 0 ≠ t.treeLeafNodes.getD (2 * k + 1) 0 →
      (t.treeLeafNodes.set (2 * k) (t.treeLeafNodes.getD (2 * k + 1) 0)).set (2 * k + 1)
          (t.treeLeafNodes.getD (2 * k) 0) ≠ t.treeLeafNodes) ∧
    (∀ j, j < datas.length → j ≠ 2 * k → j ≠ 2 * k + 1 →
      ∀ proof, t.generateProof hashNat j = .ok proof →
        verifyProof hashNat hashStr
          (getNodeHash hashNat
            ((t.treeLeafNodes.set (2 * k) (t.treeLeafNodes.getD (2 * k + 1) 0)).set (2 * k + 1)
              (t.treeLeafNodes.getD (2 * k) 0)) ⟨0, 0⟩)
          proof (datas.getD j "") = true) := by
  have hlen := buildTree_length_le hashNat hashStr datas t ht
  obtain ⟨t0, hb, hsz, hLen, hget, hnil, hroot⟩ := build_spec hashNat hashStr datas hlen
  have htt : t0 = t := Except.ok.inj (hb.symm.trans ht)
  subst htt
  refine ⟨?_, ?_, ?_⟩
  · intro node hlv
    cases node with
    | mk l idx =>
        dsimp only at hlv
        exact swap_getNodeHash hashNat t0.treeLeafNodes k hLen hk
          (treeHeight - l) l idx (by omega) (by omega)
  · intro hne12 hEq
    have h1 : ((t0.treeLeafNodes.set (2 * k) (t0.treeLeafNodes.getD (2 * k + 1) 0)).set
          (2 * k + 1) (t0.treeLeafNodes.getD (2 * k) 0)).getD (2 * k) 0
        = t0.treeLeafNodes.getD (2 * k + 1) 0 := by
      rw [getD_set_ne _ _ _ _ (by omega), getD_set_self _ _ _ (by omega)]
    rw [hEq] at h1
    exact hne12 h1
  · intro j hj hjne1 hjne2 proof hp
    have hdne : datas ≠ [] := by
      intro h
      subst h
      simp at hj
    have hem : t0.isEmpty = false := by
      simp only [MerkleTree.isEmpty, beq_eq_false_iff_ne, ne_eq, hsz]
      omega
    have hr : t0.getRootHash = .ok t0.currentRootHash := by
      rw [MerkleTree.getRootHash, if_neg (by simp [hem])]
    have hchain := build_chain_eq_root hashNat hashStr datas j hj t0 hb
      t0.currentRootHash hr proof hp
    have hrootswap : getNodeHash hashNat
        ((t0.treeLeafNodes.set (2 * k) (t0.treeLeafNodes.getD (2 * k + 1) 0)).set (2 * k + 1)
          (t0.treeLeafNodes.getD (2 * k) 0)) ⟨0, 0⟩ = t0.currentRootHash := by
      rw [swap_getNodeHash hashNat t0.treeLeafNodes k hLen hk treeHeight 0 0 (by omega) (by decide)]
      rw [← hroot hdne]
    simp only [verifyProof, beq_iff_eq]
    rw [hrootswap]
    exact hchain

/-- Witness for C10 (amended) on the tree of `["a", "bb", "ccc"]` with
length-based hashes, swapping the sibling leaf pair `(2, 3)`: the root
over the swapped leaves is unchanged and the earlier proof for index 0
still verifies against it. -/
theorem C10_witness :
    getNodeHash (fun x => x % hashMod)
        (((((((List.replicate treeCapacity 0).set 0 1).set 1 2).set 2 3).set (2 * 1)
            (((((List.replicate treeCapacity 0).set 0 1).set 1 2).set 2 3).getD (2 * 1 + 1) 0)).set
          (2 * 1 + 1)
          (((((List.replicate treeCapacity 0).set 0 1).set 1 2).set 2 3).getD (2 * 1) 0)))
        ⟨0, 0⟩
      = getNodeHash (fun x => x % hashMod)
          ((((List.replicate treeCapacity 0).set 0 1).set 1 2).set 2 3) ⟨0, 0⟩ ∧
    verifyProof (fun x => x % hashMod) (fun s => s.length % hashMod)
        (getNodeHash (fun x => x % hashMod)
          (((((((List.replicate treeCapacity 0).set 0 1).set 1 2).set 2 3).set (2 * 1)
              (((((List.replicate treeCapacity 0).set 0 1).set 1 2).set 2 3).getD (2 * 1 + 1) 0)).set
            (2 * 1 + 1)
            (((((List.replicate treeCapacity 0).set 0 1).set 1 2).set 2 3).getD (2 * 1) 0)))
          ⟨0, 0⟩)
        [2, 3, 0, 0, 0] "a" = true := by
  obtain ⟨hA, -, hC⟩ :=
    C10_sibling_swap (fun x => x % hashMod) (fun s => s.length % hashMod)
      ["a", "bb", "ccc"] 1 (by decide)
      ⟨6, 3, (((List.replicate treeCapacity 0).set 0 1).set 1 2).set 2 3⟩ (by decide)
  exact ⟨hA ⟨0, 0⟩ (by decide), hC 0 (by decide) (by decide) (by decide) [2, 3, 0, 0, 0] (by decide)⟩

end MerkleSpec
